import Mathlib

/-!
Verification development for the AWS X-Ray remote sampler of
`opentelemetry-js-contrib` (package `opentelemetry-sampler-aws-xray`).

The definitions below are a shallow embedding of the TypeScript sources:
`fallback-sampler.ts` (the `FallbackSampler` composite), the wildcard /
attribute matching utilities (`wildcardMatch`, `attributeMatch`,
`convertPatternToRegExp`, `escapeRegExp`) and the rule cache
(`RuleCache.getMatchedRule`, `sortRulesByPriority`, `updateRules`,
`updateTargets`).  JavaScript numbers are modelled as `Int` (epoch
milliseconds / seconds, priorities, intervals) or `Rat` (sampling rates);
JavaScript objects used as string-keyed maps are modelled as association
lists; `undefined` is modelled with `Option`.
-/

namespace XRay

/-- A span attribute value (`AttributeValue` of `@opentelemetry/api`): the
cases the matching code distinguishes are "a string" versus "anything else"
(`typeof text !== 'string'`), so one string constructor and two non-string
constructors suffice. -/
inductive AttributeValue where
| str (s : String)
| num (n : Int)
| boolean (b : Bool)
deriving DecidableEq, Repr

/-- Span attributes: a JavaScript object keyed by attribute name.  Modelled
as an association list; JavaScript objects cannot hold a key twice, which the
theorems record as a `Nodup` hypothesis on the keys where it matters. -/
def Attributes : Type := List (String × AttributeValue)

/-- The sampler resource is only ever passed opaquely to an applier's
`matches` predicate in the code under scrutiny, so its representation is
irrelevant; attributes are used. -/
def Resource : Type := Attributes

/-- The line terminators that a JavaScript regular expression dot `.` does
not match (no `s` flag is set by `wildcardMatch`). -/
def isLineTerminator (c : Char) : Bool :=
  c == '\n' || c == '\r' || c == Char.ofNat 0x2028 || c == Char.ofNat 0x2029

/-- The `.*` produced from a `*` wildcard: try to continue with the rest of
the pattern (`k`) from every suffix of the text reachable by consuming
non-line-terminator characters. -/
def starMatch (k : List Char → Bool) : List Char → Bool
  | [] => k []
  | t :: ts => k (t :: ts) || (!isLineTerminator t && starMatch k ts)

/-- Anchored matching of the regular expression produced by
`convertPatternToRegExp` against a text.  `escapeRegExp` escapes every regex
metacharacter except `*` and `?`, and `convertPatternToRegExp` then rewrites
`*` to `.*` and `?` to `.`; the result is matched against the whole text
(`^...$`).  Hence every pattern character other than `*`/`?` matches exactly
itself, `?` matches one arbitrary non-line-terminator character, and `*`
matches any (possibly empty) sequence of non-line-terminator characters
(`starMatch`). -/
def globMatch : List Char → List Char → Bool
  | [], [] => true
  | [], _ :: _ => false
  | p :: ps, ts =>
    if p = '*' then starMatch (globMatch ps) ts
    else
      match ts with
      | [] => false
      | t :: ts' =>
        if p = '?' then !isLineTerminator t && globMatch ps ts'
        else p == t && globMatch ps ts'

/-- Function `String.prototype.toLowerCase` on one character, modelled on the ASCII
range (the range exercised by rule names and URL/attribute patterns). -/
def jsCharToLower (c : Char) : Char :=
  match c with
  | 'A' => 'a' | 'B' => 'b' | 'C' => 'c' | 'D' => 'd' | 'E' => 'e'
  | 'F' => 'f' | 'G' => 'g' | 'H' => 'h' | 'I' => 'i' | 'J' => 'j'
  | 'K' => 'k' | 'L' => 'l' | 'M' => 'm' | 'N' => 'n' | 'O' => 'o'
  | 'P' => 'p' | 'Q' => 'q' | 'R' => 'r' | 'S' => 's' | 'T' => 't'
  | 'U' => 'u' | 'V' => 'v' | 'W' => 'w' | 'X' => 'x' | 'Y' => 'y'
  | 'Z' => 'z'
  | c => c

/-- Function `String.prototype.toLowerCase`. -/
def jsToLower (s : String) : String :=
  ⟨s.data.map jsCharToLower⟩

/-- Function `wildcardMatch(pattern?, text?)` from `fallback-sampler.ts`:
1. a pattern that is exactly `"*"` matches anything (checked first);
2. an absent pattern or a non-string text never matches;
3. an empty pattern matches exactly the empty text;
4. otherwise both sides are lower-cased and the anchored glob regular
   expression built by `convertPatternToRegExp` is applied. -/
def wildcardMatch (pattern : Option String) (text : Option AttributeValue) : Bool :=
  if pattern = some "*" then true
  else
    match pattern, text with
    | none, _ => false
    | some _, none => false
    | some _, some (AttributeValue.num _) => false
    | some _, some (AttributeValue.boolean _) => false
    | some p, some (AttributeValue.str t) =>
      if p.length = 0 then t.length == 0
      else globMatch (jsToLower p).data (jsToLower t).data

/-- The loop body of `attributeMatch`: a candidate attribute entry is
counted when its key is found among the declared rule attribute keys
(`Object.keys(ruleAttributes).find(ruleKey => ruleKey === key)`) and its
value wildcard-matches the pattern declared for that key. -/
def ruleEntryMatches (rs : List (String × String)) (kv : String × AttributeValue) : Bool :=
  match rs.find? fun r => r.1 == kv.1 with
  | none => false
  | some r => wildcardMatch (some r.2) (some kv.2)

/-- Function `attributeMatch(attributes?, ruleAttributes?)` from
`fallback-sampler.ts`: absent or empty rule attributes match anything; an
absent, empty, or too-small candidate fails; otherwise every candidate entry
whose key is declared by the rule and whose value wildcard-matches the
declared pattern is counted, and the counter must reach the number of
declared rule attributes. -/
def attributeMatch (attributes : Option (List (String × AttributeValue)))
    (ruleAttributes : Option (List (String × String))) : Bool :=
  match ruleAttributes with
  | none => true
  | some rs =>
    if rs.length = 0 then true
    else
      match attributes with
      | none => false
      | some attrs =>
        if attrs.length = 0 || decide (rs.length > attrs.length) then false
        else (attrs.filter (ruleEntryMatches rs)).length == rs.length

/-- A sampling rule (`SamplingRule` of `remote-sampler.types`/`sampling-rule`,
fields as listed by the data model).  The rule definition itself is plain
data; rates are modelled as rationals. -/
structure SamplingRule where
  RuleName : String
  Priority : Int
  ResourceARN : String
  ServiceName : String
  ServiceType : String
  Host : String
  HTTPMethod : String
  URLPath : String
  ReservoirSize : Int
  FixedRate : Rat
  Attributes : List (String × String)
  Version : Int
deriving DecidableEq, Repr

/-- Modelled from the spec: `SamplingRule.equals` (the `sampling-rule` module
is not among the sources; only its caller `RuleCache.updateRules` is) —
"equality is full structural comparison, used to detect no functional change
across refreshes". -/
def SamplingRule.equals (a b : SamplingRule) : Bool :=
  a == b

/-- Decision statistics accumulated by one applier
({RequestCount, SampleCount, BorrowCount}). -/
structure Statistics where
  RequestCount : Nat
  SampleCount : Nat
  BorrowCount : Nat
deriving DecidableEq, Repr

/-- One sampling target fetched from the X-Ray service
(`SamplingTargetDocument`): quota, quota TTL, fixed rate and an optional
polling interval for one rule. -/
structure SamplingTargetDocument where
  RuleName : String
  FixedRate : Rat
  ReservoirQuota : Int
  ReservoirQuotaTTL : Int
  Interval : Option Int
deriving DecidableEq, Repr

/-- Type `TargetMap`: the JavaScript object mapping rule names to their targets.
Modelled as an association list (a JavaScript object cannot repeat a key). -/
def TargetMap : Type := List (String × SamplingTargetDocument)

/-- Lookup `targetDocuments[ruleName]` on a `TargetMap`. -/
def targetLookup (tm : TargetMap) (name : String) : Option SamplingTargetDocument :=
  (List.find? (fun e => e.1 == name) tm).map fun e => e.2

/-- Modelled from the spec: `SamplingRuleApplier` (the `sampling-rule-applier`
module is not among the sources; only its callers in `RuleCache` are) — it
"owns one SamplingRule, one composite sampler (Reservoir + FixedRateSampler),
one Statistics accumulator".  The reservoir's remotely assigned quota/TTL and
the applier's fixed rate stand in for the composite sampler's live state, and
the `matches` predicate — whose definition the cache never inspects — is an
abstract per-applier boolean function of the span attributes and the sampler
resource. -/
structure SamplingRuleApplier where
  samplingRule : SamplingRule
  reservoirQuota : Option Int
  reservoirQuotaTTL : Option Int
  fixedRate : Rat
  statistics : Statistics
  matchesFn : Attributes → Resource → Bool

/-- Modelled from the spec: `SamplingRuleApplier.withTarget(target)` —
"returns a new, otherwise-equivalent applier with reservoir quota/TTL/
fixedRate replaced by target values while preserving accumulated statistics
and identity". -/
def SamplingRuleApplier.withTarget (r : SamplingRuleApplier)
    (t : SamplingTargetDocument) : SamplingRuleApplier :=
  { r with
    reservoirQuota := some t.ReservoirQuota
    reservoirQuotaTTL := some t.ReservoirQuotaTTL
    fixedRate := t.FixedRate }

/-- The state of a `RuleCache`: the ordered applier collection, the epoch
milliseconds of the last rule refresh, and the resource snapshot used for
matching. -/
structure RuleCacheState where
  ruleAppliers : List SamplingRuleApplier
  lastUpdatedEpochMillis : Int
  samplerResource : Resource

/-- The `RuleCache` constructor: empty applier list, `lastUpdatedEpochMillis`
stamped with the current time. -/
def mkRuleCache (samplerResource : Resource) (now : Int) : RuleCacheState :=
  { ruleAppliers := [], lastUpdatedEpochMillis := now, samplerResource := samplerResource }

/-- The predicate scanned by `RuleCache.getMatchedRule`:
`rule.matches(attributes, samplerResource) || rule.samplingRule.RuleName === 'Default'`. -/
def matchesOrDefault (attributes : Attributes) (res : Resource)
    (rule : SamplingRuleApplier) : Bool :=
  rule.matchesFn attributes res || rule.samplingRule.RuleName == "Default"

/-- Method `RuleCache.getMatchedRule(attributes)`: the first stored applier that
matches the attributes or is named `"Default"`. -/
def getMatchedRule (st : RuleCacheState) (attributes : Attributes) :
    Option SamplingRuleApplier :=
  st.ruleAppliers.find? (matchesOrDefault attributes st.samplerResource)

/-- The strict order underlying the comparator of
`RuleCache.sortRulesByPriority`: ascending `Priority`, ties broken by
ascending `RuleName`. -/
def ruleKeyLt (a b : SamplingRuleApplier) : Prop :=
  a.samplingRule.Priority < b.samplingRule.Priority ∨
    (a.samplingRule.Priority = b.samplingRule.Priority ∧
      a.samplingRule.RuleName < b.samplingRule.RuleName)

instance (a b : SamplingRuleApplier) : Decidable (ruleKeyLt a b) := by
  unfold ruleKeyLt
  infer_instance

/-- The comparator of `RuleCache.sortRulesByPriority` as a "keep `a` before
`b`" test: the comparator returns a value `≤ 0` on `(a, b)` exactly when
`a`'s priority is smaller, or the priorities are equal and `a`'s name is
smaller. -/
def ruleLe (a b : SamplingRuleApplier) : Bool :=
  decide (a.samplingRule.Priority < b.samplingRule.Priority) ||
    (a.samplingRule.Priority == b.samplingRule.Priority &&
      decide (a.samplingRule.RuleName < b.samplingRule.RuleName))

/-- Insertion step of the sort used to model `Array.prototype.sort` with the
priority comparator. -/
def insertRule (a : SamplingRuleApplier) :
    List SamplingRuleApplier → List SamplingRuleApplier
  | [] => [a]
  | b :: l => if ruleLe a b then a :: b :: l else b :: insertRule a l

/-- Method `RuleCache.sortRulesByPriority`: sorts the applier list with the
(Priority asc, RuleName asc) comparator; modelled as an insertion sort, which
produces a permutation sorted for the comparator. -/
def sortRulesByPriority (l : List SamplingRuleApplier) : List SamplingRuleApplier :=
  l.foldr insertRule []

/-- The lookup in the `oldRuleAppliersMap` object that
`RuleCache.updateRules` builds: the object is filled by a forward iteration
in which a later applier with the same rule name overwrites an earlier one,
so looking a name up finds the last applier carrying it. -/
def lookupRuleByName (old : List SamplingRuleApplier) (name : String) :
    Option SamplingRuleApplier :=
  old.reverse.find? fun r => r.samplingRule.RuleName == name

/-- The merge loop of `RuleCache.updateRules`: each incoming applier whose
rule name is known and whose rule content is structurally unchanged is
replaced by the existing applier of that name; every other incoming applier
is kept as delivered. -/
def mergeRuleAppliers (old new : List SamplingRuleApplier) :
    List SamplingRuleApplier :=
  new.map fun newRule =>
    match lookupRuleByName old newRule.samplingRule.RuleName with
    | none => newRule
    | some oldRule =>
      if newRule.samplingRule.equals oldRule.samplingRule then oldRule else newRule

/-- Method `RuleCache.updateRules(newRuleAppliers)`: merge against the old appliers,
install the merged collection, sort it by priority, and stamp
`lastUpdatedEpochMillis` with the current time. -/
def updateRules (st : RuleCacheState) (newRuleAppliers : List SamplingRuleApplier)
    (now : Int) : RuleCacheState :=
  { st with
    ruleAppliers := sortRulesByPriority (mergeRuleAppliers st.ruleAppliers newRuleAppliers)
    lastUpdatedEpochMillis := now }

/-- Constant `DEFAULT_TARGET_POLLING_INTERVAL_SECONDS`. -/
def DEFAULT_TARGET_POLLING_INTERVAL_SECONDS : Int := 10

/-- The applier loop of `RuleCache.updateTargets`: each applier whose rule
name has a target is swapped for `withTarget`; a target that carries a truthy
`Interval` (in JavaScript, `0` is falsy and so is skipped) lowers the running
minimum polling interval. -/
def updateTargetsLoop (tm : TargetMap) :
    List SamplingRuleApplier → List SamplingRuleApplier × Option Int
  | [] => ([], none)
  | rule :: rest =>
    let res := updateTargetsLoop tm rest
    match targetLookup tm rule.samplingRule.RuleName with
    | none => (rule :: res.1, res.2)
    | some target =>
      let newMin :=
        match target.Interval with
        | none => res.2
        | some i =>
          if i = 0 then res.2
          else
            match res.2 with
            | none => some i
            | some m => some (min i m)
      (rule.withTarget target :: res.1, newMin)

/-- The result of `RuleCache.updateTargets`: the mutated cache plus the
returned pair `[refreshSamplingRules, nextPollingInterval]`. -/
structure UpdateTargetsResult where
  cache : RuleCacheState
  refreshSamplingRules : Bool
  nextPollingInterval : Int

/-- Method `RuleCache.updateTargets(targetDocuments, lastRuleModification)`: apply
targets to the appliers they name, compute the next polling interval from the
smallest truthy `Interval` seen (defaulting to 10 seconds), and report
whether the rules are stale — exactly when
`lastRuleModification * 1000 > lastUpdatedEpochMillis`. -/
def updateTargets (st : RuleCacheState) (targetDocuments : TargetMap)
    (lastRuleModification : Int) : UpdateTargetsResult :=
  let res := updateTargetsLoop targetDocuments st.ruleAppliers
  let nextPollingInterval : Int :=
    match res.2 with
    | none => DEFAULT_TARGET_POLLING_INTERVAL_SECONDS
    | some m =>
      if m = 0 then DEFAULT_TARGET_POLLING_INTERVAL_SECONDS else m
  { cache := { st with ruleAppliers := res.1 }
    refreshSamplingRules := decide (lastRuleModification * 1000 > st.lastUpdatedEpochMillis)
    nextPollingInterval := nextPollingInterval }

/-- The minimum of a list of integers, `none` on the empty list; the
independent rendering of "the minimum `Interval` among the received targets"
used to state what `updateTargets` computes. -/
def minIntList : List Int → Option Int
  | [] => none
  | x :: xs =>
    match minIntList xs with
    | none => some x
    | some m => some (min x m)

/-- The polling intervals that `updateTargets` actually considers: for each
stored applier in order, the `Interval` of the target its rule name maps to,
kept only when the target exists and the interval is present and nonzero. -/
def appliedIntervals (st : RuleCacheState) (tm : TargetMap) : List Int :=
  st.ruleAppliers.filterMap fun rule =>
    match targetLookup tm rule.samplingRule.RuleName with
    | none => none
    | some target =>
      match target.Interval with
      | none => none
      | some i => if i = 0 then none else some i

/-- The claim's reading of the polling interval: the minimum `Interval`
carried by any received target (any entry of the target map), defaulting to
10 when no received target carries an `Interval`. -/
def claimedNextPollingInterval (tm : TargetMap) : Int :=
  match minIntList (tm.filterMap fun e => e.2.Interval) with
  | none => DEFAULT_TARGET_POLLING_INTERVAL_SECONDS
  | some m => m

/-- Type `SamplingDecision` of `@opentelemetry/sdk-trace-base`. -/
inductive SamplingDecision where
| NOT_RECORD
| RECORD
| RECORD_AND_SAMPLED
deriving DecidableEq, Repr

/-- Type `SamplingResult`: the decision produced by a sampler (the optional
result attributes play no role in the embedded logic and are omitted). -/
structure SamplingResult where
  decision : SamplingDecision
deriving DecidableEq, Repr

/-- Modelled from the spec: the state of a `RateLimitingSampler`
(`rate-limiting-sampler.ts` is not among the sources; only its caller
`FallbackSampler` is) — "a hard per-second counting window that resets at
second boundaries", allowing at most `quota` grants per wall-clock second. -/
structure RateLimiterState where
  quota : Nat
  windowEpochSeconds : Int
  usedInWindow : Nat
deriving DecidableEq, Repr

/-- Modelled from the spec: the per-call grant decision of the rate limiter
inside the current window — a call is granted (`RECORD_AND_SAMPLED`) while
fewer than `quota` grants have been made in the window and denied
(`NOT_RECORD`) afterwards. -/
def rateLimiterTick (s : RateLimiterState) : RateLimiterState × SamplingResult :=
  if s.usedInWindow < s.quota then
    ({ s with usedInWindow := s.usedInWindow + 1 },
      { decision := SamplingDecision.RECORD_AND_SAMPLED })
  else
    (s, { decision := SamplingDecision.NOT_RECORD })

/-- Modelled from the spec: `RateLimitingSampler.shouldSample` — on entering
a new wall-clock second the window counter resets, then the quota-bound
grant decision is made. -/
def rateLimiterShouldSample (s : RateLimiterState) (nowEpochSeconds : Int) :
    RateLimiterState × SamplingResult :=
  if nowEpochSeconds ≠ s.windowEpochSeconds then
    rateLimiterTick { s with windowEpochSeconds := nowEpochSeconds, usedInWindow := 0 }
  else
    rateLimiterTick s

/-- The state of a `FallbackSampler`: the trace-id-ratio sampler's configured
ratio and the rate limiter.  The trace-id-ratio sampler itself is an external
library collaborator; its decision function is passed in as a parameter of
`fallbackShouldSample`. -/
structure FallbackSamplerState where
  fixedRateRatio : Rat
  rateLimiter : RateLimiterState
deriving DecidableEq, Repr

/-- The `FallbackSampler` constructor:
`new TraceIdRatioBasedSampler(0.05)` and `new RateLimitingSampler(1)`. -/
def mkFallbackSampler (nowEpochSeconds : Int) : FallbackSamplerState :=
  { fixedRateRatio := 5 / 100
    rateLimiter := { quota := 1, windowEpochSeconds := nowEpochSeconds, usedInWindow := 0 } }

/-- Method `FallbackSampler.shouldSample`: consult the rate limiter; a limiter
result other than `NOT_RECORD` is returned as is, and otherwise the
trace-id-ratio sampler (`fixedRateSampler`, abstracted as a function of the
configured ratio and the trace id) decides. -/
def fallbackShouldSample (st : FallbackSamplerState)
    (fixedRateSampler : Rat → String → SamplingResult)
    (nowEpochSeconds : Int) (traceId : String) :
    FallbackSamplerState × SamplingResult :=
  let res := rateLimiterShouldSample st.rateLimiter nowEpochSeconds
  if res.2.decision ≠ SamplingDecision.NOT_RECORD then
    ({ st with rateLimiter := res.1 }, res.2)
  else
    ({ st with rateLimiter := res.1 }, fixedRateSampler st.fixedRateRatio traceId)

/-- Whether an optional attribute value is a string
(`typeof text === 'string'` on a present value). -/
def isStringValue : Option AttributeValue → Bool
  | some (AttributeValue.str _) => true
  | _ => false

/-- A concrete sampling rule used by witnesses and counterexamples. -/
def exRule (name : String) (prio : Int) : SamplingRule :=
  { RuleName := name
    Priority := prio
    ResourceARN := "*"
    ServiceName := "*"
    ServiceType := "*"
    Host := "*"
    HTTPMethod := "*"
    URLPath := "*"
    ReservoirSize := 1
    FixedRate := 1 / 10
    Attributes := []
    Version := 1 }

/-- A concrete applier whose `matches` predicate constantly returns `m`. -/
def exApplier (name : String) (prio : Int) (m : Bool) : SamplingRuleApplier :=
  { samplingRule := exRule name prio
    reservoirQuota := none
    reservoirQuotaTTL := none
    fixedRate := 1 / 10
    statistics := { RequestCount := 0, SampleCount := 0, BorrowCount := 0 }
    matchesFn := fun _ _ => m }

/-- A concrete sampling target with a chosen optional interval. -/
def exTarget (name : String) (i : Option Int) : SamplingTargetDocument :=
  { RuleName := name
    FixedRate := 1 / 10
    ReservoirQuota := 5
    ReservoirQuotaTTL := 0
    Interval := i }

/-- Cache holding an unsatisfied `"Default"` applier of priority 1 before a
satisfied applier `"B"` of priority 2: the order is sorted for the priority
comparator, yet the scan stops at the `"Default"` applier. -/
def exC1St : RuleCacheState :=
  { ruleAppliers := [exApplier "Default" 1 false, exApplier "B" 2 true]
    lastUpdatedEpochMillis := 0
    samplerResource := [] }

/-- Cache holding a satisfied applier `"B"` of priority 1 followed by an
unsatisfied `"Default"` applier of priority 10000 (the shape produced by the
X-Ray service, where the Default rule carries the maximal priority). -/
def exC1WSt : RuleCacheState :=
  { ruleAppliers := [exApplier "B" 1 true, exApplier "Default" 10000 false]
    lastUpdatedEpochMillis := 0
    samplerResource := [] }

/-- An applier named `"A"` carrying live state: nonzero statistics, an
assigned reservoir quota and TTL. -/
def exOldApplier : SamplingRuleApplier :=
  { samplingRule := exRule "A" 1
    reservoirQuota := some 7
    reservoirQuotaTTL := some 9
    fixedRate := 1 / 10
    statistics := { RequestCount := 5, SampleCount := 3, BorrowCount := 2 }
    matchesFn := fun _ _ => true }

/-- A freshly parsed applier for the structurally identical rule `"A"`:
zeroed statistics, no quota. -/
def exNewApplier : SamplingRuleApplier :=
  { samplingRule := exRule "A" 1
    reservoirQuota := none
    reservoirQuotaTTL := none
    fixedRate := 1 / 10
    statistics := { RequestCount := 0, SampleCount := 0, BorrowCount := 0 }
    matchesFn := fun _ _ => true }

/-- A cache whose only applier is `exOldApplier`. -/
def exC2St : RuleCacheState :=
  { ruleAppliers := [exOldApplier]
    lastUpdatedEpochMillis := 0
    samplerResource := [] }

/-- A cache holding one applier, named `"A"`. -/
def exC8St : RuleCacheState :=
  { ruleAppliers := [exApplier "A" 1 true]
    lastUpdatedEpochMillis := 0
    samplerResource := [] }

/-- A target map carrying an `Interval` of 0 for the stored rule `"A"` and an
`Interval` of 3 for a rule `"X"` no applier is stored for. -/
def exC8Tm : TargetMap :=
  [("A", exTarget "A" (some 0)), ("X", exTarget "X" (some 3))]

/-- A target map whose only entry names a rule (`"X"`) that no stored applier
carries. -/
def exTmX : TargetMap :=
  [("X", exTarget "X" (some 3))]

/-- A concrete stand-in for the trace-id-ratio sampler's decision function. -/
def exFixedRate (_ : Rat) (_ : String) : SamplingResult :=
  { decision := SamplingDecision.NOT_RECORD }

theorem jsCharToLower_eq_star {c : Char} : jsCharToLower c = '*' ↔ c = '*' := by
  unfold jsCharToLower
  split <;> first | decide | exact Iff.rfl

theorem jsCharToLower_eq_question {c : Char} : jsCharToLower c = '?' ↔ c = '?' := by
  unfold jsCharToLower
  split <;> first | decide | exact Iff.rfl

theorem jsToLower_no_wildcards {p : String}
    (hp : ∀ c ∈ p.data, c ≠ '*' ∧ c ≠ '?') :
    '*' ∉ (jsToLower p).data ∧ '?' ∉ (jsToLower p).data := by
  constructor <;> intro hmem
  · obtain ⟨c, hc, hlc⟩ := List.mem_map.mp hmem
    exact (hp c hc).1 (jsCharToLower_eq_star.mp hlc)
  · obtain ⟨c, hc, hlc⟩ := List.mem_map.mp hmem
    exact (hp c hc).2 (jsCharToLower_eq_question.mp hlc)

theorem globMatch_literal (ps : List Char) :
    ∀ ts : List Char, '*' ∉ ps → '?' ∉ ps → (globMatch ps ts = true ↔ ps = ts) := by
  induction ps with
  | nil => intro ts _ _; cases ts <;> simp [globMatch]
  | cons p ps ih =>
    intro ts hstar hq
    have hp1 : p ≠ '*' := fun h => hstar (h ▸ List.mem_cons_self p ps)
    have hp2 : p ≠ '?' := fun h => hq (h ▸ List.mem_cons_self p ps)
    have hs : '*' ∉ ps := fun h => hstar (List.mem_cons_of_mem p h)
    have hq' : '?' ∉ ps := fun h => hq (List.mem_cons_of_mem p h)
    cases ts with
    | nil => simp [globMatch, hp1]
    | cons t ts =>
      simp [globMatch, hp1, hp2, ih ts hs hq', beq_iff_eq]

/-- Claim C4: for a literal pattern (one containing neither `*` nor `?`) and
a string value, `wildcardMatch` decides exactly case-insensitive equality,
i.e. equality after `toLowerCase` on both sides. -/
theorem wildcardMatch_literal (p v : String)
    (hp : ∀ c ∈ p.data, c ≠ '*' ∧ c ≠ '?') :
    (wildcardMatch (some p) (some (AttributeValue.str v)) = true ↔
      jsToLower p = jsToLower v) := by
  have hpstar : p ≠ "*" := by
    intro h
    subst h
    exact (hp '*' (by decide)).1 rfl
  unfold wildcardMatch
  rw [if_neg (by simpa using hpstar)]
  show (if p.length = 0 then (v.length == 0 : Bool)
      else globMatch (jsToLower p).data (jsToLower v).data) = true ↔
    jsToLower p = jsToLower v
  by_cases hlen : p.length = 0
  · rw [if_pos hlen]
    have hpd : p.data = [] := List.length_eq_zero.mp hlen
    constructor
    · intro h
      have hv : v.data = [] := List.length_eq_zero.mp (by simpa using h)
      apply String.ext
      simp [jsToLower, hpd, hv]
    · intro h
      have hmap : List.map jsCharToLower v.data = [] := by
        have := String.ext_iff.mp h
        simpa [jsToLower, hpd] using this.symm
      have hv : v.data = [] := List.map_eq_nil_iff.mp hmap
      simp [String.length, hv]
  · rw [if_neg hlen]
    obtain ⟨h1, h2⟩ := jsToLower_no_wildcards hp
    rw [globMatch_literal _ _ h1 h2]
    exact ⟨fun h => String.ext h, fun h => String.ext_iff.mp h⟩

/-- Witness for C4 at a concrete literal pattern and value differing only in
letter case. -/
theorem wildcardMatch_literal_witness :
    (∀ c ∈ "AbC".data, c ≠ '*' ∧ c ≠ '?') ∧
    wildcardMatch (some "AbC") (some (AttributeValue.str "abC")) = true :=
  ⟨by decide, (wildcardMatch_literal "AbC" "abC" (by decide)).mpr (by decide)⟩

/-- Counterexample to claim C5 as stated: for the pattern `"*"` the check
`pattern === '*'` precedes the string type check, so an absent value and a
numeric value both match. -/
theorem wildcardMatch_nonstring_counterexample :
    wildcardMatch (some "*") none = true ∧
    wildcardMatch (some "*") (some (AttributeValue.num 5)) = true := by
  decide

/-- Claim C5 (amended): for every pattern other than the literal `"*"` —
including an absent pattern — an absent or non-string value never matches. -/
theorem wildcardMatch_nonstring (p : Option String) (t : Option AttributeValue)
    (hpat : p ≠ some "*") (ht : isStringValue t = false) :
    wildcardMatch p t = false := by
  unfold wildcardMatch
  rw [if_neg hpat]
  match p, t with
  | none, _ => rfl
  | some _, none => rfl
  | some _, some (AttributeValue.num _) => rfl
  | some _, some (AttributeValue.boolean _) => rfl
  | some _, some (AttributeValue.str _) => simp [isStringValue] at ht

/-- Witness for the amended C5 at a concrete non-`"*"` pattern and a numeric
value. -/
theorem wildcardMatch_nonstring_witness :
    wildcardMatch (some "a") (some (AttributeValue.num 3)) = false :=
  wildcardMatch_nonstring (some "a") (some (AttributeValue.num 3))
    (by decide) (by decide)

/-- Claim C6: the pattern `"*"` matches every value, present or absent,
string or not; the empty pattern matches the empty string value and no other
string value. -/
theorem wildcardMatch_star_empty :
    (∀ x : Option AttributeValue, wildcardMatch (some "*") x = true) ∧
    wildcardMatch (some "") (some (AttributeValue.str "")) = true ∧
    ∀ v : String, v ≠ "" →
      wildcardMatch (some "") (some (AttributeValue.str v)) = false := by
  refine ⟨fun x => by unfold wildcardMatch; rw [if_pos rfl], by decide, fun v hv => ?_⟩
  unfold wildcardMatch
  rw [if_neg (by simp)]
  show (v.length == 0 : Bool) = false
  simp only [beq_eq_false_iff_ne, ne_eq]
  intro hlen
  exact hv (String.ext (List.length_eq_zero.mp hlen))

/-- Witness for C6 at the concrete nonempty value `"x"` and at an absent
value for the `"*"` pattern. -/
theorem wildcardMatch_star_empty_witness :
    wildcardMatch (some "") (some (AttributeValue.str "x")) = false ∧
    wildcardMatch (some "*") none = true :=
  ⟨wildcardMatch_star_empty.2.2 "x" (by decide), wildcardMatch_star_empty.1 none⟩

/-- Claim C7: the `refreshSamplingRules` component of `updateTargets` is true
exactly when `lastRuleModification * 1000` exceeds the cache's
`lastUpdatedEpochMillis`, whatever the target map contains. -/
theorem updateTargets_refresh (st : RuleCacheState) (tm : TargetMap)
    (lastRuleModification : Int) :
    (updateTargets st tm lastRuleModification).refreshSamplingRules =
      decide (lastRuleModification * 1000 > st.lastUpdatedEpochMillis) := rfl

theorem minIntList_mem : ∀ {l : List Int} {m : Int}, minIntList l = some m → m ∈ l := by
  intro l
  induction l with
  | nil => intro m h; cases h
  | cons x xs ih =>
    intro m h
    unfold minIntList at h
    cases hx : minIntList xs with
    | none =>
      rw [hx] at h
      cases h
      exact List.mem_cons_self _ _
    | some m' =>
      rw [hx] at h
      cases h
      rcases min_choice x m' with hm | hm <;> rw [hm]
      · exact List.mem_cons_self _ _
      · exact List.mem_cons_of_mem _ (ih hx)

theorem appliedIntervals_nonzero (st : RuleCacheState) (tm : TargetMap) :
    ∀ x ∈ appliedIntervals st tm, x ≠ 0 := by
  intro x hx
  obtain ⟨rule, _, heq⟩ := List.mem_filterMap.mp hx
  split at heq
  · simp at heq
  · split at heq
    · simp at heq
    · split at heq
      · simp at heq
      · rename_i hi
        simp only [Option.some.injEq] at heq
        subst heq
        exact hi

theorem updateTargetsLoop_min (tm : TargetMap) (l : List SamplingRuleApplier) :
    (updateTargetsLoop tm l).2 = minIntList (l.filterMap fun rule =>
      match targetLookup tm rule.samplingRule.RuleName with
      | none => none
      | some target =>
        match target.Interval with
        | none => none
        | some i => if i = 0 then none else some i) := by
  induction l with
  | nil => rfl
  | cons rule rest ih =>
    simp only [updateTargetsLoop, List.filterMap_cons]
    cases htl : targetLookup tm rule.samplingRule.RuleName with
    | none => simpa [htl] using ih
    | some target =>
      cases hti : target.Interval with
      | none => simpa [htl, hti] using ih
      | some i =>
        by_cases hi : i = 0
        · simp [htl, hti, hi, ih]
        · simp [htl, hti, hi, ih, minIntList]

/-- Claim C8 (amended): the `nextPollingInterval` component of
`updateTargets` is the minimum of the nonzero `Interval`s of the targets
that were applied to some stored applier (matched by rule name), and the
10-second default when there is no such interval.  A received target naming
no stored rule, and a received `Interval` of `0` (falsy in JavaScript), do
not enter the minimum. -/
theorem updateTargets_nextPollingInterval (st : RuleCacheState) (tm : TargetMap)
    (lm : Int) :
    (updateTargets st tm lm).nextPollingInterval =
      (minIntList (appliedIntervals st tm)).getD DEFAULT_TARGET_POLLING_INTERVAL_SECONDS := by
  show (match (updateTargetsLoop tm st.ruleAppliers).2 with
    | none => DEFAULT_TARGET_POLLING_INTERVAL_SECONDS
    | some m => if m = 0 then DEFAULT_TARGET_POLLING_INTERVAL_SECONDS else m) = _
  rw [show (updateTargetsLoop tm st.ruleAppliers).2 = minIntList (appliedIntervals st tm)
    from updateTargetsLoop_min tm st.ruleAppliers]
  cases h : minIntList (appliedIntervals st tm) with
  | none => rfl
  | some m =>
    have hm := appliedIntervals_nonzero st tm m (minIntList_mem h)
    simp [hm]

/-- Counterexample to claim C8 as stated: with one stored applier `"A"`, a
received target for `"A"` carrying `Interval` 0 and a received target for the
unknown rule `"X"` carrying `Interval` 3, the code returns the 10-second
default although the minimum `Interval` among the received targets is 0. -/
theorem updateTargets_interval_counterexample :
    (updateTargets exC8St exC8Tm 0).nextPollingInterval ≠
      claimedNextPollingInterval exC8Tm ∧
    claimedNextPollingInterval exC8Tm = 0 ∧
    (updateTargets exC8St exC8Tm 0).nextPollingInterval = 10 := by
  decide

theorem updateTargetsLoop_length (tm : TargetMap) :
    ∀ l : List SamplingRuleApplier, (updateTargetsLoop tm l).1.length = l.length := by
  intro l
  induction l with
  | nil => rfl
  | cons rule rest ih =>
    unfold updateTargetsLoop
    cases htl : targetLookup tm rule.samplingRule.RuleName <;> simp [htl, ih]

theorem updateTargetsLoop_getElem (tm : TargetMap) :
    ∀ (l : List SamplingRuleApplier) (i : Nat) (a : SamplingRuleApplier),
      l[i]? = some a → targetLookup tm a.samplingRule.RuleName = none →
      (updateTargetsLoop tm l).1[i]? = some a := by
  intro l
  induction l with
  | nil => intro i a ha; simp at ha
  | cons rule rest ih =>
    intro i a ha hnone
    cases i with
    | zero =>
      simp only [List.getElem?_cons_zero, Option.some.injEq] at ha
      subst ha
      unfold updateTargetsLoop
      rw [hnone]
      show (rule :: (updateTargetsLoop tm rest).1)[0]? = some rule
      exact List.getElem?_cons_zero
    | succ n =>
      simp only [List.getElem?_cons_succ] at ha
      have hr := ih n a ha hnone
      unfold updateTargetsLoop
      cases htl : targetLookup tm rule.samplingRule.RuleName <;> simpa [htl] using hr

/-- Claim C10: `updateTargets` leaves `lastUpdatedEpochMillis` (and the
resource and the applier count) unchanged — only construction and
`updateRules` stamp it — and a stored applier whose rule name has no entry
in the received target map is kept untouched at its position. -/
theorem updateTargets_frame (st : RuleCacheState) (tm : TargetMap) (lm : Int) :
    (updateTargets st tm lm).cache.lastUpdatedEpochMillis = st.lastUpdatedEpochMillis ∧
    (updateTargets st tm lm).cache.samplerResource = st.samplerResource ∧
    (updateTargets st tm lm).cache.ruleAppliers.length = st.ruleAppliers.length ∧
    (∀ (res : Resource) (now : Int), (mkRuleCache res now).lastUpdatedEpochMillis = now) ∧
    (∀ (l : List SamplingRuleApplier) (now : Int),
      (updateRules st l now).lastUpdatedEpochMillis = now) ∧
    ∀ (i : Nat) (a : SamplingRuleApplier), st.ruleAppliers[i]? = some a →
      targetLookup tm a.samplingRule.RuleName = none →
      (updateTargets st tm lm).cache.ruleAppliers[i]? = some a :=
  ⟨rfl, rfl, updateTargetsLoop_length tm st.ruleAppliers, fun _ _ => rfl, fun _ _ => rfl,
    fun i a ha hn => updateTargetsLoop_getElem tm st.ruleAppliers i a ha hn⟩

/-- Witness for C10: the applier `"A"` survives untouched when the only
received target names the unknown rule `"X"`, and the refresh timestamp is
kept. -/
theorem updateTargets_frame_witness :
    (updateTargets exC8St exTmX 0).cache.ruleAppliers[0]? = some (exApplier "A" 1 true) ∧
    (updateTargets exC8St exTmX 0).cache.lastUpdatedEpochMillis = 0 :=
  ⟨(updateTargets_frame exC8St exTmX 0).2.2.2.2.2 0 (exApplier "A" 1 true) rfl rfl,
    (updateTargets_frame exC8St exTmX 0).1⟩

theorem rateLimiterTick_granted (s : RateLimiterState)
    (h : (rateLimiterTick s).2.decision ≠ SamplingDecision.NOT_RECORD) :
    s.usedInWindow < s.quota ∧
    (rateLimiterTick s).1 = { s with usedInWindow := s.usedInWindow + 1 } := by
  unfold rateLimiterTick at *
  by_cases hq : s.usedInWindow < s.quota
  · rw [if_pos hq] at *
    exact ⟨hq, rfl⟩
  · rw [if_neg hq] at h
    exact absurd rfl h

theorem rateLimiterTick_denied (s : RateLimiterState)
    (h : ¬ s.usedInWindow < s.quota) :
    (rateLimiterTick s).2.decision = SamplingDecision.NOT_RECORD := by
  unfold rateLimiterTick
  rw [if_neg h]

theorem rateLimiterShouldSample_granted (s : RateLimiterState) (now : Int)
    (h : (rateLimiterShouldSample s now).2.decision ≠ SamplingDecision.NOT_RECORD) :
    (rateLimiterShouldSample s now).1.windowEpochSeconds = now ∧
    (rateLimiterShouldSample s now).1.usedInWindow ≥ 1 ∧
    (rateLimiterShouldSample s now).1.quota = s.quota := by
  unfold rateLimiterShouldSample at *
  by_cases hw : now ≠ s.windowEpochSeconds
  · rw [if_pos hw] at *
    obtain ⟨_, hstate⟩ := rateLimiterTick_granted _ h
    rw [hstate]
    exact ⟨rfl, Nat.le_add_left 1 _, rfl⟩
  · rw [if_neg hw] at *
    obtain ⟨_, hstate⟩ := rateLimiterTick_granted _ h
    rw [hstate]
    exact ⟨(not_ne_iff.mp hw).symm, Nat.le_add_left 1 _, rfl⟩

/-- Claim C9: `FallbackSampler.shouldSample` is the composite of the
1-per-second rate limiter and the 5% trace-id-ratio sampler: the limiter's
verdict is returned whenever it is a recording decision; otherwise the
trace-id-ratio sampler (here an arbitrary decision function of the
configured ratio and the trace id) decides.  The constructor configures the
ratio 0.05 and the limiter quota 1, and once the limiter has granted a call
it denies every further call in the same wall-clock second. -/
theorem fallbackShouldSample_spec (fixedRateSampler : Rat → String → SamplingResult)
    (st : FallbackSamplerState) (now : Int) (traceId : String) :
    (mkFallbackSampler now).fixedRateRatio = 5 / 100 ∧
    (mkFallbackSampler now).rateLimiter.quota = 1 ∧
    ((rateLimiterShouldSample st.rateLimiter now).2.decision ≠ SamplingDecision.NOT_RECORD →
      (fallbackShouldSample st fixedRateSampler now traceId).2 =
        (rateLimiterShouldSample st.rateLimiter now).2) ∧
    ((rateLimiterShouldSample st.rateLimiter now).2.decision = SamplingDecision.NOT_RECORD →
      (fallbackShouldSample st fixedRateSampler now traceId).2 =
        fixedRateSampler st.fixedRateRatio traceId) ∧
    (st.rateLimiter.quota = 1 →
      (rateLimiterShouldSample st.rateLimiter now).2.decision ≠ SamplingDecision.NOT_RECORD →
      (rateLimiterShouldSample
          (fallbackShouldSample st fixedRateSampler now traceId).1.rateLimiter
          now).2.decision = SamplingDecision.NOT_RECORD) := by
  refine ⟨rfl, rfl, ?_, ?_, ?_⟩
  · intro h
    unfold fallbackShouldSample
    rw [if_pos h]
  · intro h
    unfold fallbackShouldSample
    rw [if_neg (by simp [h])]
  · intro hq h
    have hstate : (fallbackShouldSample st fixedRateSampler now traceId).1.rateLimiter =
        (rateLimiterShouldSample st.rateLimiter now).1 := by
      unfold fallbackShouldSample
      by_cases hd : (rateLimiterShouldSample st.rateLimiter now).2.decision ≠
          SamplingDecision.NOT_RECORD
      · rw [if_pos hd]
      · rw [if_neg hd]
    rw [hstate]
    obtain ⟨hw, hu, hqq⟩ := rateLimiterShouldSample_granted st.rateLimiter now h
    set r := (rateLimiterShouldSample st.rateLimiter now).1 with hr
    unfold rateLimiterShouldSample
    rw [if_neg (by rw [hw]; exact not_ne_iff.mpr rfl)]
    exact rateLimiterTick_denied _ (by rw [hqq, hq]; omega)

theorem ruleEntryMatches_elim {rs : List (String × String)} {kv : String × AttributeValue}
    (h : ruleEntryMatches rs kv = true) :
    ∃ r ∈ rs, r.1 = kv.1 ∧ wildcardMatch (some r.2) (some kv.2) = true := by
  unfold ruleEntryMatches at h
  cases hf : rs.find? (fun r => r.1 == kv.1) with
  | none => rw [hf] at h; cases h
  | some r =>
    rw [hf] at h
    exact ⟨r, List.mem_of_find?_eq_some hf, by simpa using List.find?_some hf, h⟩

theorem ruleEntryMatches_intro {rs : List (String × String)} {kv : String × AttributeValue}
    (hr : (rs.map Prod.fst).Nodup) {r : String × String}
    (hmem : r ∈ rs) (hkey : r.1 = kv.1)
    (hwm : wildcardMatch (some r.2) (some kv.2) = true) :
    ruleEntryMatches rs kv = true := by
  unfold ruleEntryMatches
  cases hf : rs.find? (fun r => r.1 == kv.1) with
  | none =>
    rw [List.find?_eq_none] at hf
    exact absurd hkey (by simpa using hf r hmem)
  | some rFound =>
    have hfk : rFound.1 = kv.1 := by simpa using List.find?_some hf
    have : rFound = r := List.inj_on_of_nodup_map hr
      (List.mem_of_find?_eq_some hf) hmem (by rw [hfk, hkey])
    subst this
    exact hwm

theorem filter_keys_subset (attrs : List (String × AttributeValue))
    (rs : List (String × String)) :
    ((attrs.filter (ruleEntryMatches rs)).map Prod.fst) ⊆ rs.map Prod.fst := by
  intro k hk
  obtain ⟨kv, hkv, hkeq⟩ := List.mem_map.mp hk
  obtain ⟨r, hrmem, hrk, _⟩ := ruleEntryMatches_elim (List.mem_filter.mp hkv).2
  subst hkeq
  rw [← hrk]
  exact List.mem_map_of_mem Prod.fst hrmem

theorem attributeCount_iff (attrs : List (String × AttributeValue))
    (rs : List (String × String))
    (ha : (attrs.map Prod.fst).Nodup) (hr : (rs.map Prod.fst).Nodup) :
    ((attrs.filter (ruleEntryMatches rs)).length = rs.length ↔
      ∀ r ∈ rs, ∃ v, (r.1, v) ∈ attrs ∧ wildcardMatch (some r.2) (some v) = true) := by
  have hFnd : ((attrs.filter (ruleEntryMatches rs)).map Prod.fst).Nodup :=
    List.Nodup.sublist ((List.filter_sublist attrs).map Prod.fst) ha
  have hFsub := filter_keys_subset attrs rs
  constructor
  · intro hlen r hrmem
    have hsubF : ((attrs.filter (ruleEntryMatches rs)).map Prod.fst).toFinset ⊆
        (rs.map Prod.fst).toFinset := by
      intro x hxx
      exact List.mem_toFinset.mpr (hFsub (List.mem_toFinset.mp hxx))
    have heqF : ((attrs.filter (ruleEntryMatches rs)).map Prod.fst).toFinset =
        (rs.map Prod.fst).toFinset := by
      apply Finset.eq_of_subset_of_card_le hsubF
      rw [List.toFinset_card_of_nodup hFnd, List.toFinset_card_of_nodup hr,
        List.length_map, List.length_map, hlen]
    have hkmem : r.1 ∈ (attrs.filter (ruleEntryMatches rs)).map Prod.fst := by
      rw [← List.mem_toFinset, heqF, List.mem_toFinset]
      exact List.mem_map_of_mem Prod.fst hrmem
    obtain ⟨kv, hkvF, hkeq⟩ := List.mem_map.mp hkmem
    obtain ⟨r', hr'mem, hr'k, hwm⟩ := ruleEntryMatches_elim (List.mem_filter.mp hkvF).2
    have : r' = r := List.inj_on_of_nodup_map hr hr'mem hrmem (by rw [hr'k, hkeq])
    subst this
    refine ⟨kv.2, ?_, hwm⟩
    rw [hr'k, Prod.mk.eta]
    exact (List.mem_filter.mp hkvF).1
  · intro hall
    have h1 : (attrs.filter (ruleEntryMatches rs)).length ≤ rs.length := by
      have := (hFnd.subperm hFsub).length_le
      simpa using this
    have h2 : rs.length ≤ (attrs.filter (ruleEntryMatches rs)).length := by
      have hsub2 : rs.map Prod.fst ⊆ (attrs.filter (ruleEntryMatches rs)).map Prod.fst := by
        intro k hk
        obtain ⟨r, hrmem, hkeq⟩ := List.mem_map.mp hk
        obtain ⟨v, hvmem, hwm⟩ := hall r hrmem
        have hent : ruleEntryMatches rs (r.1, v) = true :=
          ruleEntryMatches_intro hr hrmem rfl hwm
        subst hkeq
        exact List.mem_map.mpr ⟨(r.1, v), List.mem_filter.mpr ⟨hvmem, hent⟩, rfl⟩
      have := (hr.subperm hsub2).length_le
      simpa using this
    omega

/-- Claim C3: `attributeMatch` accepts when the rule declares no attributes
(absent or empty map), and otherwise exactly when every declared key is
present in the candidate attributes with a wildcard-matching value; the keys
of the candidate and of the rule are assumed duplicate-free, as JavaScript
objects cannot repeat a key. -/
theorem attributeMatch_spec (oas : Option (List (String × AttributeValue)))
    (ors : Option (List (String × String)))
    (ha : ((oas.getD []).map Prod.fst).Nodup)
    (hr : ((ors.getD []).map Prod.fst).Nodup) :
    (attributeMatch oas ors = true ↔
      ∀ r ∈ ors.getD [], ∃ v, (r.1, v) ∈ oas.getD [] ∧
        wildcardMatch (some r.2) (some v) = true) := by
  cases ors with
  | none => simp [attributeMatch]
  | some rs =>
    by_cases hrs : rs.length = 0
    · have : rs = [] := List.length_eq_zero.mp hrs
      subst this
      simp [attributeMatch]
    · cases oas with
      | none =>
        have hval : attributeMatch none (some rs) = false := by
          show (if rs.length = 0 then true else false) = false
          rw [if_neg hrs]
        rw [hval]
        simp only [Bool.false_eq_true, false_iff, not_forall]
        obtain ⟨r, hrmem⟩ : ∃ r, r ∈ rs := by
          cases rs with
          | nil => exact absurd rfl hrs
          | cons a l => exact ⟨a, List.mem_cons_self a l⟩
        refine ⟨r, hrmem, ?_⟩
        rintro ⟨v, hv, -⟩
        simp at hv
      | some attrs =>
        have hval : attributeMatch (some attrs) (some rs) =
            (if (decide (attrs.length = 0) || decide (rs.length > attrs.length)) = true
              then false
              else (((attrs.filter (ruleEntryMatches rs)).length == rs.length : Bool))) := by
          show (if rs.length = 0 then true
              else if (decide (attrs.length = 0) ||
                  decide (rs.length > attrs.length)) = true then false
              else (((attrs.filter (ruleEntryMatches rs)).length == rs.length : Bool))) = _
          rw [if_neg hrs]
        rw [hval]
        by_cases hguard :
            (decide (attrs.length = 0) || decide (rs.length > attrs.length)) = true
        · rw [if_pos hguard]
          simp only [Bool.false_eq_true, false_iff, not_forall]
          by_contra hcon
          push_neg at hcon
          have hall : ∀ r ∈ rs, ∃ v, (r.1, v) ∈ attrs ∧
              wildcardMatch (some r.2) (some v) = true := hcon
          have hsub : rs.map Prod.fst ⊆ attrs.map Prod.fst := by
            intro k hk
            obtain ⟨r, hrmem, hkeq⟩ := List.mem_map.mp hk
            obtain ⟨v, hvmem, _⟩ := hall r hrmem
            subst hkeq
            exact List.mem_map.mpr ⟨(r.1, v), hvmem, rfl⟩
          have hle : rs.length ≤ attrs.length := by
            have := (List.Nodup.subperm hr hsub).length_le
            simpa using this
          have hcases : attrs.length = 0 ∨ rs.length > attrs.length := by
            simpa using hguard
          rcases hcases with hg | hg <;> omega
        · rw [if_neg hguard]
          simp only [beq_iff_eq]
          exact attributeCount_iff attrs rs ha hr

/-- Witness for C3 at a one-entry candidate and a one-entry rule attribute
map whose pattern matches case-insensitively. -/
theorem attributeMatch_spec_witness :
    attributeMatch (some [("http.method", AttributeValue.str "GET")])
      (some [("http.method", "get")]) = true := by
  apply (attributeMatch_spec (some [("http.method", AttributeValue.str "GET")])
    (some [("http.method", "get")]) (by decide) (by decide)).mpr
  intro r hrmem
  simp only [Option.getD, List.mem_singleton] at hrmem
  subst hrmem
  exact ⟨AttributeValue.str "GET", by decide, by decide⟩

theorem insertRule_perm (a : SamplingRuleApplier) :
    ∀ l : List SamplingRuleApplier, (insertRule a l).Perm (a :: l) := by
  intro l
  induction l with
  | nil => exact List.Perm.refl _
  | cons b l ih =>
    unfold insertRule
    by_cases h : ruleLe a b = true
    · rw [if_pos h]
    · rw [if_neg h]
      exact (ih.cons b).trans (List.Perm.swap a b l)

theorem sortRulesByPriority_perm (l : List SamplingRuleApplier) :
    (sortRulesByPriority l).Perm l := by
  induction l with
  | nil => exact List.Perm.refl _
  | cons x xs ih =>
    show (insertRule x (sortRulesByPriority xs)).Perm (x :: xs)
    exact (insertRule_perm x _).trans (ih.cons x)

theorem lookupRuleByName_mem {old : List SamplingRuleApplier} {n : String}
    {o : SamplingRuleApplier} (h : lookupRuleByName old n = some o) :
    o ∈ old ∧ o.samplingRule.RuleName = n :=
  ⟨List.mem_reverse.mp (List.mem_of_find?_eq_some h), by simpa using List.find?_some h⟩

theorem lookupRuleByName_isSome {old : List SamplingRuleApplier} {n : String}
    {b : SamplingRuleApplier} (hb : b ∈ old) (hn : b.samplingRule.RuleName = n) :
    ∃ o, lookupRuleByName old n = some o :=
  Option.isSome_iff_exists.mp
    (List.find?_isSome.mpr ⟨b, List.mem_reverse.mpr hb, by simpa using hn⟩)

/-- Claim C2: an incoming applier whose rule is structurally identical to the
rule of the stored applier of the same name is replaced by that stored
applier — its statistics and sampler state survive the refresh — while an
incoming applier with a changed rule or a fresh name is kept as delivered;
the installed collection is a permutation (the priority re-sort) of the
merged list.  Rule names of the stored appliers are assumed unique, the
cache's documented invariant. -/
theorem updateRules_spec (st : RuleCacheState) (newAppliers : List SamplingRuleApplier)
    (now : Int)
    (hnames : (st.ruleAppliers.map fun a => a.samplingRule.RuleName).Nodup) :
    ((updateRules st newAppliers now).ruleAppliers).Perm
        (mergeRuleAppliers st.ruleAppliers newAppliers) ∧
    ∀ (i : Nat) (a : SamplingRuleApplier), newAppliers[i]? = some a →
      (∀ b ∈ st.ruleAppliers,
          b.samplingRule.RuleName = a.samplingRule.RuleName →
          b.samplingRule = a.samplingRule →
          (mergeRuleAppliers st.ruleAppliers newAppliers)[i]? = some b) ∧
      ((∀ b ∈ st.ruleAppliers,
          b.samplingRule.RuleName = a.samplingRule.RuleName →
          b.samplingRule ≠ a.samplingRule) →
        (mergeRuleAppliers st.ruleAppliers newAppliers)[i]? = some a) := by
  constructor
  · exact sortRulesByPriority_perm _
  · intro i a ha
    have hmap : (mergeRuleAppliers st.ruleAppliers newAppliers)[i]? =
        some (match lookupRuleByName st.ruleAppliers a.samplingRule.RuleName with
          | none => a
          | some oldRule =>
            if a.samplingRule.equals oldRule.samplingRule then oldRule else a) := by
      unfold mergeRuleAppliers
      rw [List.getElem?_map, ha]
      rfl
    constructor
    · intro b hb hname hrule
      obtain ⟨o, ho⟩ := lookupRuleByName_isSome hb hname
      obtain ⟨homem, honame⟩ := lookupRuleByName_mem ho
      have hob : o = b := List.inj_on_of_nodup_map hnames homem hb (by rw [honame, hname])
      subst hob
      rw [hmap, ho]
      have heqb : a.samplingRule.equals o.samplingRule = true := by
        simp [SamplingRule.equals, hrule]
      show some (if a.samplingRule.equals o.samplingRule = true then o else a) = some o
      rw [if_pos heqb]
    · intro hdiff
      rw [hmap]
      cases ho : lookupRuleByName st.ruleAppliers a.samplingRule.RuleName with
      | none => rfl
      | some o =>
        obtain ⟨homem, honame⟩ := lookupRuleByName_mem ho
        have hne : o.samplingRule ≠ a.samplingRule := hdiff o homem honame
        show some (if a.samplingRule.equals o.samplingRule = true then o else a) = some a
        rw [if_neg (by simp [SamplingRule.equals, beq_iff_eq]; exact fun h => hne h.symm)]

/-- Witness for C2: re-delivering the unchanged rule `"A"` substitutes the
old applier — statistics `{5, 3, 2}` and quota survive — and the installed
collection is the (here one-element) sorted merge. -/
theorem updateRules_spec_witness :
    (mergeRuleAppliers exC2St.ruleAppliers [exNewApplier])[0]? = some exOldApplier ∧
    ((updateRules exC2St [exNewApplier] 5).ruleAppliers).Perm
      (mergeRuleAppliers exC2St.ruleAppliers [exNewApplier]) :=
  ⟨((updateRules_spec exC2St [exNewApplier] 5 (by decide)).2 0 exNewApplier rfl).1
      exOldApplier (List.mem_cons_self _ _) rfl rfl,
    (updateRules_spec exC2St [exNewApplier] 5 (by decide)).1⟩

theorem find?_first_min {α : Type _} {r : α → α → Prop} {p : α → Bool} :
    ∀ {l : List α}, l.Pairwise r → ∀ {m}, l.find? p = some m →
      ∀ b ∈ l, p b = true → m = b ∨ r m b := by
  intro l
  induction l with
  | nil => intro _ m h; cases h
  | cons x xs ih =>
    intro hp m hfind b hb hpb
    rw [List.pairwise_cons] at hp
    by_cases hpx : p x = true
    · rw [List.find?_cons_of_pos _ hpx] at hfind
      cases hfind
      rcases List.mem_cons.mp hb with rfl | hb'
      · exact Or.inl rfl
      · exact Or.inr (hp.1 b hb')
    · rw [List.find?_cons_of_neg _ (by simpa using hpx)] at hfind
      rcases List.mem_cons.mp hb with rfl | hb'
      · exact absurd hpb hpx
      · exact ih hp.2 hfind b hb' hpb

theorem ruleKeyLt_asymm {a b : SamplingRuleApplier}
    (h1 : ruleKeyLt a b) (h2 : ruleKeyLt b a) : False := by
  unfold ruleKeyLt at *
  rcases h1 with h1 | ⟨e1, n1⟩ <;> rcases h2 with h2 | ⟨e2, n2⟩
  · omega
  · omega
  · omega
  · exact absurd n2 (lt_asymm n1)

/-- Counterexample to claim C1 as stated: in a cache sorted for the priority
comparator whose `"Default"` applier (priority 1, predicate unsatisfied)
precedes a satisfied non-Default applier `"B"` (priority 2), the scan stops
at the `"Default"` applier — the Default rule is returned in preference to a
satisfied non-Default rule. -/
theorem getMatchedRule_counterexample :
    exC1St.ruleAppliers.Pairwise ruleKeyLt ∧
    exApplier "B" 2 true ∈ exC1St.ruleAppliers ∧
    (exApplier "B" 2 true).matchesFn [] exC1St.samplerResource = true ∧
    (exApplier "B" 2 true).samplingRule.RuleName ≠ "Default" ∧
    (exApplier "Default" 1 false).matchesFn [] exC1St.samplerResource = false ∧
    (getMatchedRule exC1St []).map (fun a => a.samplingRule.RuleName) = some "Default" :=
  ⟨by decide, List.mem_cons_of_mem _ (List.mem_cons_self _ _), rfl, by decide, rfl, rfl⟩

/-- Claim C1 (amended): in a cache sorted for the (Priority asc, RuleName
asc) comparator with unique rule names, and provided no applier named
`"Default"` precedes a satisfied applier in that order (the shape the X-Ray
service produces, where the Default rule carries the maximal priority),
`getMatchedRule` returns the satisfied applier with the lowest
(Priority, RuleName); when no predicate is satisfied it returns the
`"Default"`-named applier; and when there is neither it returns `none`. -/
theorem getMatchedRule_lowest (st : RuleCacheState) (attrs : Attributes)
    (hsorted : st.ruleAppliers.Pairwise ruleKeyLt)
    (hnames : (st.ruleAppliers.map fun a => a.samplingRule.RuleName).Nodup)
    (hdef : ∀ a ∈ st.ruleAppliers, a.samplingRule.RuleName = "Default" →
      ∀ b ∈ st.ruleAppliers, b.matchesFn attrs st.samplerResource = true →
        b.samplingRule.RuleName ≠ "Default" → ruleKeyLt b a) :
    ((∃ b ∈ st.ruleAppliers, b.matchesFn attrs st.samplerResource = true) →
      ∃ m, getMatchedRule st attrs = some m ∧
        m.matchesFn attrs st.samplerResource = true ∧
        ∀ b ∈ st.ruleAppliers, b.matchesFn attrs st.samplerResource = true →
          m = b ∨ ruleKeyLt m b) ∧
    ((∀ b ∈ st.ruleAppliers, b.matchesFn attrs st.samplerResource = false) →
      ((∃ d ∈ st.ruleAppliers, d.samplingRule.RuleName = "Default") →
        ∃ m, getMatchedRule st attrs = some m ∧ m.samplingRule.RuleName = "Default") ∧
      ((∀ d ∈ st.ruleAppliers, d.samplingRule.RuleName ≠ "Default") →
        getMatchedRule st attrs = none)) := by
  unfold getMatchedRule
  constructor
  · rintro ⟨b0, hb0, hmb0⟩
    have hpred : matchesOrDefault attrs st.samplerResource b0 = true := by
      simp [matchesOrDefault, hmb0]
    obtain ⟨m, hm⟩ := Option.isSome_iff_exists.mp
      (List.find?_isSome.mpr ⟨b0, hb0, hpred⟩)
    have hmem := List.mem_of_find?_eq_some hm
    have hpm : matchesOrDefault attrs st.samplerResource m = true := List.find?_some hm
    by_cases hmatch : m.matchesFn attrs st.samplerResource = true
    · refine ⟨m, hm, hmatch, fun b hb hmb => ?_⟩
      exact find?_first_min hsorted hm b hb (by simp [matchesOrDefault, hmb])
    · exfalso
      have hnameD : m.samplingRule.RuleName = "Default" := by
        simp only [matchesOrDefault, Bool.or_eq_true, beq_iff_eq] at hpm
        rcases hpm with h | h
        · exact absurd h hmatch
        · exact h
      by_cases hb0D : b0.samplingRule.RuleName = "Default"
      · have hbm : b0 = m :=
          List.inj_on_of_nodup_map hnames hb0 hmem (by rw [hb0D, hnameD])
        exact hmatch (hbm ▸ hmb0)
      · have hlt := hdef m hmem hnameD b0 hb0 hmb0 hb0D
        rcases find?_first_min hsorted hm b0 hb0 hpred with heq | hlt2
        · exact hmatch (by rw [heq]; exact hmb0)
        · exact ruleKeyLt_asymm hlt2 hlt
  · intro hnone
    constructor
    · rintro ⟨d, hd, hdD⟩
      have hpredd : matchesOrDefault attrs st.samplerResource d = true := by
        simp [matchesOrDefault, hdD]
      obtain ⟨m, hm⟩ := Option.isSome_iff_exists.mp
        (List.find?_isSome.mpr ⟨d, hd, hpredd⟩)
      have hmem := List.mem_of_find?_eq_some hm
      have hpm : matchesOrDefault attrs st.samplerResource m = true := List.find?_some hm
      refine ⟨m, hm, ?_⟩
      simp only [matchesOrDefault, Bool.or_eq_true, beq_iff_eq] at hpm
      rcases hpm with h | h
      · rw [hnone m hmem] at h; cases h
      · exact h
    · intro hnD
      apply List.find?_eq_none.mpr
      intro x hx
      simp only [matchesOrDefault, Bool.or_eq_true, beq_iff_eq, not_or]
      exact ⟨by simp [hnone x hx], hnD x hx⟩

/-- Witness for the amended C1: with the satisfied applier `"B"` (priority 1)
stored before the unsatisfied `"Default"` applier (priority 10000), the scan
returns a satisfied applier. -/
theorem getMatchedRule_lowest_witness :
    ∃ m, getMatchedRule exC1WSt [] = some m ∧
      m.matchesFn [] exC1WSt.samplerResource = true := by
  obtain ⟨m, h1, h2, -⟩ := (getMatchedRule_lowest exC1WSt [] (by decide) (by decide)
    (by decide)).1 ⟨exApplier "B" 1 true, List.mem_cons_self _ _, rfl⟩
  exact ⟨m, h1, h2⟩

/-- Witness for C9: from a freshly constructed fallback sampler the first
call returns the limiter's (granting) verdict, and a second call in the same
second is denied by the limiter. -/
theorem fallbackShouldSample_witness :
    (fallbackShouldSample (mkFallbackSampler 0) exFixedRate 0 "t").2 =
      (rateLimiterShouldSample (mkFallbackSampler 0).rateLimiter 0).2 ∧
    (rateLimiterShouldSample
        (fallbackShouldSample (mkFallbackSampler 0) exFixedRate 0 "t").1.rateLimiter
        0).2.decision = SamplingDecision.NOT_RECORD :=
  ⟨(fallbackShouldSample_spec exFixedRate (mkFallbackSampler 0) 0 "t").2.2.1 (by decide),
    (fallbackShouldSample_spec exFixedRate (mkFallbackSampler 0) 0 "t").2.2.2.2
      (by decide) (by decide)⟩

end XRay
